import Mathlib

/-!
Verification of the database schema-evolution and vector-index lifecycle core
of the immich server (`src/server/src/repositories/database.repository.ts`).

The embedding below translates the repository code into Lean:
pure helpers become Lean functions; the SQL side effects of the orchestration
methods are recorded as explicit event lists over an abstract database state;
the two-tier locking protocol is modelled both as a sequential state-passing
function (for the scoped acquire/release discipline of `withLock`, `tryLock`
and `wait`) and as a labelled transition system over interleaved threads
(for the mutual-exclusion guarantees).
-/

set_option maxRecDepth 100000

namespace ImmichDb

/-! ## String containment

`indexdef.toLowerCase().includes(keyword)` from the source is modelled by
`lowerContains` below, built from an executable substring check over
character lists. -/

/-- Boolean test that `n` starts the list `h` (models the start-anchored part
of a JavaScript substring search). -/
def leadsWith : List Char → List Char → Bool
  | [], _ => true
  | _ :: _, [] => false
  | a :: as, b :: bs => a = b && leadsWith as bs

/-- Boolean substring test: does `needle` occur contiguously inside `hay`?
Models the JavaScript `String.prototype.includes`. -/
def hasSub (needle : List Char) : List Char → Bool
  | [] => leadsWith needle []
  | c :: t => leadsWith needle (c :: t) || hasSub needle t

/-- Case-insensitive containment exactly as the source computes it:
lower-case the haystack, then run a substring search for the (already
lower-case) keyword. -/
def lowerContains (hay needle : String) : Bool :=
  hasSub needle.toList (hay.toList.map Char.toLower)

/-- Propositional containment of one string in another, used to state the
spec-level claims about emitted SQL text. -/
def strContains (s sub : String) : Prop :=
  sub.toList <:+: s.toList

instance (s sub : String) : Decidable (strContains s sub) :=
  List.decidableInfix sub.toList s.toList

theorem leadsWith_iff (n : List Char) : ∀ h : List Char, leadsWith n h = true ↔ n <+: h := by
  induction n with
  | nil => intro h; simp [leadsWith, List.nil_prefix]
  | cons a as ih =>
    intro h
    cases h with
    | nil => simp [leadsWith]
    | cons b bs =>
      simp [leadsWith, ih bs, List.cons_prefix_cons]

theorem hasSub_iff (n : List Char) : ∀ h : List Char, hasSub n h = true ↔ n <:+: h := by
  intro h
  induction h with
  | nil =>
    simp only [hasSub, leadsWith_iff, List.prefix_nil, List.infix_nil]
  | cons c t ih =>
    simp only [hasSub, Bool.or_eq_true, leadsWith_iff, ih, List.infix_cons_iff]

/-! ## Extension kinds and named resources -/

/-- Extension kinds, from `DatabaseExtension` in `src/enum.ts`.
Modelled from the spec: the enum file itself is not under `src/`; the spec
describes a closed set of extension variants of which exactly three are
vector-search extensions (the targets of every strategy function), the
remaining members standing for the kinds every strategy function must reject
as unsupported. -/
inductive DatabaseExtension
  | cube
  | earthDistance
  | vector
  | vectors
  | vectorchord
  deriving DecidableEq, Repr

/-- Display names from the `EXTENSION_NAMES` table in `src/constants.ts`
(modelled from the spec; only used inside error message text). -/
def extensionName : DatabaseExtension → String
  | .cube => "cube"
  | .earthDistance => "earthdistance"
  | .vector => "pgvector"
  | .vectors => "pgvecto.rs"
  | .vectorchord => "VectorChord"

/-- Named locks, from `DatabaseLock` in `src/enum.ts`.
Modelled from the spec: a small closed enumeration, one entry per
schema-mutating resource (global migrations, CLIP index rebuild, face index
rebuild), each mapping to a string key for the in-process mutex and a stable
integer for the database advisory lock. -/
inductive DatabaseLock
  | migrations
  | clipDimSize
  | faceDimSize
  deriving DecidableEq, Repr

/-- The reverse-enum string `DatabaseLock[lock]` used as the in-process
mutex key in `asyncLock.acquire(DatabaseLock[lock], ...)`. -/
def lockName : DatabaseLock → String
  | .migrations => "Migrations"
  | .clipDimSize => "CLIPDimSize"
  | .faceDimSize => "FaceDimSize"

/-- The numeric enum value used as the advisory-lock key in
`pg_advisory_lock(lock)`. -/
def lockId : DatabaseLock → Nat
  | .migrations => 200
  | .clipDimSize => 512
  | .faceDimSize => 513

/-- Vector index identifiers, from `VectorIndex` in `src/enum.ts`: the enum
value is the index name string (seen concretely in the migration files under
`src/server/src/migrations`, which create `clip_index` and `face_index`). -/
inductive VectorIndex
  | clip
  | face
  deriving DecidableEq, Repr

def vectorIndexName : VectorIndex → String
  | .clip => "clip_index"
  | .face => "face_index"

/-! ## Semantic versions

The source stores versions as strings and classifies deltas with
`semver.diff`. Versions are modelled here already parsed into release
triples (prerelease tags are out of scope for the claims). -/

structure SemVer where
  major : Nat
  minor : Nat
  patch : Nat
  deriving DecidableEq, Repr

inductive ReleaseType
  | major
  | minor
  | patch
  deriving DecidableEq, Repr

/-- `semver.diff a b` for release versions: `none` when equal, otherwise the
highest version component in which the two differ. -/
def semverDiff (a b : SemVer) : Option ReleaseType :=
  if a = b then none
  else if a.major ≠ b.major then some .major
  else if a.minor ≠ b.minor then some .minor
  else some .patch

/-- `ExtensionVersion` from `src/types.ts`: the two nullable version fields
read from `pg_available_extensions`. -/
structure ExtensionVersion where
  availableVersion : Option SemVer
  installedVersion : Option SemVer
  deriving DecidableEq, Repr

/-- `VectorUpdateResult` from `src/types.ts`. -/
structure VectorUpdateResult where
  restartRequired : Bool
  deriving DecidableEq, Repr

/-! ## Index-creation statements (`createVectorIndex`) -/

/-- `createVectorIndex` from `database.repository.ts` lines 22-47: per
extension kind, the literal SQL template for the embedding index; the
`default` switch branch throws for unsupported kinds, modelled with
`Except.error`. -/
def createVectorIndex (vectorExtension : DatabaseExtension) (tableName indexName : String) :
    Except String String :=
  match vectorExtension with
  | .vectorchord =>
    .ok ("\n        CREATE INDEX IF NOT EXISTS " ++ indexName ++ " ON " ++ tableName ++
      " USING vchordrq (embedding vector_cosine_ops) WITH (options = $$\n        residual_quantization = false\n        [build.internal]\n        lists = [1000]\n        spherical_centroids = true\n        $$)")
  | .vectors =>
    .ok ("\n        CREATE INDEX IF NOT EXISTS " ++ indexName ++ " ON " ++ tableName ++
      " USING vectors (embedding vector_cos_ops) WITH (options = $$\n        [indexing.hnsw]\n        m = 16\n        ef_construction = 300\n        $$)")
  | .vector =>
    .ok ("\n        CREATE INDEX IF NOT EXISTS " ++ indexName ++ "\n        ON " ++ tableName ++
      "\n        USING hnsw (embedding vector_cosine_ops)")
  | e => .error ("Unsupported vector extension: " ++ extensionName e)

theorem strContains_append_left (a b sub : String) (h : strContains b sub) :
    strContains (a ++ b) sub := by
  unfold strContains at h ⊢
  have hb : b.toList <:+: (a ++ b).toList := by
    have : (a ++ b).toList = a.toList ++ b.toList := by simp [String.toList]
    rw [this]
    exact (List.suffix_append a.toList b.toList).isInfix
  exact h.trans hb

/-- C5: `createVectorIndex` raises a configuration error for every
unsupported extension kind, and for each of the three supported kinds
returns SQL text containing that kind's expected access-method keyword:
`vchordrq` for vectorchord, `vectors` with fixed `m = 16` and
`ef_construction = 300` for the legacy kind, and `hnsw` for the native
vector kind. -/
theorem C5_createVectorIndex_templates :
    (∀ t i, ∃ e, createVectorIndex .cube t i = .error e) ∧
    (∀ t i, ∃ e, createVectorIndex .earthDistance t i = .error e) ∧
    (∀ t i, ∃ s, createVectorIndex .vectorchord t i = .ok s ∧
      strContains s "USING vchordrq") ∧
    (∀ t i, ∃ s, createVectorIndex .vectors t i = .ok s ∧
      strContains s "USING vectors" ∧ strContains s "m = 16" ∧
      strContains s "ef_construction = 300") ∧
    (∀ t i, ∃ s, createVectorIndex .vector t i = .ok s ∧
      strContains s "USING hnsw") := by
  refine ⟨fun t i => ⟨_, rfl⟩, fun t i => ⟨_, rfl⟩, ?_, ?_, ?_⟩
  · intro t i
    exact ⟨_, rfl, strContains_append_left _ _ _ (by decide)⟩
  · intro t i
    exact ⟨_, rfl, strContains_append_left _ _ _ (by decide),
      strContains_append_left _ _ _ (by decide),
      strContains_append_left _ _ _ (by decide)⟩
  · intro t i
    exact ⟨_, rfl, strContains_append_left _ _ _ (by decide)⟩

/-! ## Drift detection (`shouldReindex`) -/

/-- One row of the `pg_indexes` catalog query in `shouldReindex`. -/
structure PgIndexRow where
  indexdef : String
  indexname : String
  deriving DecidableEq, Repr

/-- The `switch (this.vectorExtension)` block of `shouldReindex` (lines
161-174): the single access-method keyword expected per extension kind;
the `default` branch throws for unsupported kinds. -/
def expectedKeyword : DatabaseExtension → Except String String
  | .vector => .ok "using hnsw"
  | .vectorchord => .ok "using vchordrq"
  | .vectors => .ok "using vectors"
  | e => .error ("Unsupported vector extension: " ++ extensionName e)

/-- `DatabaseRepository.shouldReindex` (lines 155-183): fetch the live rows
of `pg_indexes` whose `indexname` is among the requested names, then map
each requested name to whether its first matching row is absent or its
definition text, lower-cased, misses the expected keyword. The catalog is
modelled by the row list `indexRows`. -/
def shouldReindex (indexRows : List PgIndexRow) (vectorExtension : DatabaseExtension)
    (names : List VectorIndex) : Except String (List Bool) :=
  let rows := indexRows.filter fun r => (names.map vectorIndexName).contains r.indexname
  match expectedKeyword vectorExtension with
  | .error e => .error e
  | .ok keyword =>
    .ok (names.map fun name =>
      match rows.find? (fun r => r.indexname == vectorIndexName name) with
      | none => true
      | some r => ! lowerContains r.indexdef keyword)

theorem find?_filter {α : Type} (p q : α → Bool) :
    ∀ l : List α, (∀ x, p x = true → q x = true) →
      (l.filter q).find? p = l.find? p := by
  intro l hpq
  induction l with
  | nil => rfl
  | cons a t ih =>
    by_cases hq : q a = true
    · rw [List.filter_cons_of_pos hq]
      by_cases hp : p a = true
      · rw [List.find?_cons_of_pos _ hp, List.find?_cons_of_pos _ hp]
      · rw [List.find?_cons_of_neg _ (by simpa using hp),
          List.find?_cons_of_neg _ (by simpa using hp)]
        exact ih
    · have hp : ¬ p a = true := fun h => hq (hpq a h)
      rw [List.filter_cons_of_neg (by simpa using hq),
        List.find?_cons_of_neg _ (by simpa using hp)]
      exact ih

/-- C6: `shouldReindex` marks an index as needing rebuild iff no live
definition exists for its name or the definition text does not contain,
case-insensitively, the single keyword fixed by the active extension kind
(`using hnsw` / `using vchordrq` / `using vectors`); an unsupported active
kind raises a configuration error. -/
theorem C6_shouldReindex_drift :
    (∀ rows names, ∃ e, shouldReindex rows .cube names = .error e) ∧
    (∀ rows names, ∃ e, shouldReindex rows .earthDistance names = .error e) ∧
    (expectedKeyword .vector = .ok "using hnsw" ∧
      expectedKeyword .vectorchord = .ok "using vchordrq" ∧
      expectedKeyword .vectors = .ok "using vectors") ∧
    (∀ rows ext keyword names bs,
      expectedKeyword ext = .ok keyword →
      (∀ r1, r1 ∈ rows → ∀ r2, r2 ∈ rows → r1.indexname = r2.indexname → r1 = r2) →
      shouldReindex rows ext names = .ok bs →
      bs.length = names.length ∧
      ∀ (i : Nat) (h : i < names.length) (hb : i < bs.length),
        bs[i] = true ↔
          ¬ ∃ r, r ∈ rows ∧ r.indexname = vectorIndexName names[i] ∧
            lowerContains r.indexdef keyword = true) := by
  refine ⟨fun rows names => ⟨_, rfl⟩, fun rows names => ⟨_, rfl⟩, ⟨rfl, rfl, rfl⟩, ?_⟩
  intro rows ext keyword names bs hkw huniq hrun
  unfold shouldReindex at hrun
  rw [hkw] at hrun
  simp only [Except.ok.injEq] at hrun
  subst hrun
  refine ⟨List.length_map _ _, ?_⟩
  intro i h hb
  have hfilter : ∀ x : PgIndexRow, (x.indexname == vectorIndexName names[i]) = true →
      ((names.map vectorIndexName).contains x.indexname) = true := by
    intro x hx
    have hx2 : x.indexname = vectorIndexName names[i] := eq_of_beq hx
    have hm : x.indexname ∈ names.map vectorIndexName := by
      rw [hx2]
      exact List.mem_map_of_mem _ (List.getElem_mem h)
    simpa using hm
  have hget :
      (names.map fun name =>
        match (rows.filter fun r =>
            (names.map vectorIndexName).contains r.indexname).find?
            (fun r => r.indexname == vectorIndexName name) with
        | none => true
        | some r => ! lowerContains r.indexdef keyword)[i] =
      match rows.find? (fun r => r.indexname == vectorIndexName names[i]) with
      | none => true
      | some r => ! lowerContains r.indexdef keyword := by
    rw [List.getElem_map]
    rw [find?_filter _ _ rows hfilter]
  rw [hget]
  cases hfind : rows.find? (fun r => r.indexname == vectorIndexName names[i]) with
  | none =>
    simp only [true_iff]
    rintro ⟨r, hmem, hname, hcont⟩
    have := List.find?_eq_none.mp hfind r hmem
    simp [hname] at this
  | some r =>
    have hpr := List.find?_some hfind
    have hrname : r.indexname = vectorIndexName names[i] := eq_of_beq (by simpa using hpr)
    have hrmem : r ∈ rows := List.mem_of_find?_eq_some hfind
    dsimp only
    constructor
    · intro hbs
      rintro ⟨r2, hmem2, hname2, hcont2⟩
      have heq : r2 = r := huniq r2 hmem2 r hrmem (hname2.trans hrname.symm)
      rw [heq] at hcont2
      rw [hcont2] at hbs
      simp at hbs
    · intro hno
      by_contra hbs
      have hc : lowerContains r.indexdef keyword = true := by
        by_contra hc2
        rw [Bool.not_eq_true] at hc2
        rw [hc2] at hbs
        simp at hbs
      exact hno ⟨r, hrmem, hrname, hc⟩

/-- Witness for C6 at a concrete catalog: one live row whose definition
uses `hnsw` while the active kind vectorchord expects `vchordrq`, so both
requested indexes are flagged for rebuild. -/
theorem C6_shouldReindex_drift_witness :
    expectedKeyword DatabaseExtension.vectorchord = .ok "using vchordrq" ∧
    (∀ r1, r1 ∈ [PgIndexRow.mk "CREATE INDEX clip_index ON smart_search USING hnsw (embedding)" "clip_index"] →
      ∀ r2, r2 ∈ [PgIndexRow.mk "CREATE INDEX clip_index ON smart_search USING hnsw (embedding)" "clip_index"] →
      r1.indexname = r2.indexname → r1 = r2) ∧
    shouldReindex [PgIndexRow.mk "CREATE INDEX clip_index ON smart_search USING hnsw (embedding)" "clip_index"]
      DatabaseExtension.vectorchord [VectorIndex.clip, VectorIndex.face] = .ok [true, true] ∧
    (([true, true] : List Bool).length = ([VectorIndex.clip, VectorIndex.face] : List VectorIndex).length ∧
      ∀ (i : Nat) (h : i < ([VectorIndex.clip, VectorIndex.face] : List VectorIndex).length)
        (hb : i < ([true, true] : List Bool).length),
        ([true, true] : List Bool)[i] = true ↔
          ¬ ∃ r, r ∈ [PgIndexRow.mk "CREATE INDEX clip_index ON smart_search USING hnsw (embedding)" "clip_index"] ∧
            r.indexname = vectorIndexName ([VectorIndex.clip, VectorIndex.face] : List VectorIndex)[i] ∧
            lowerContains r.indexdef "using vchordrq" = true) :=
  ⟨rfl, by decide, rfl,
    C6_shouldReindex_drift.2.2.2
      [PgIndexRow.mk "CREATE INDEX clip_index ON smart_search USING hnsw (embedding)" "clip_index"]
      DatabaseExtension.vectorchord "using vchordrq" [VectorIndex.clip, VectorIndex.face]
      [true, true] rfl (by decide) rfl⟩

/-! ## Reindex and extension-upgrade orchestration

The SQL effects of `reindex` and `updateVectorExtension` are recorded as an
event list; read-only catalog lookups are answered by an abstract
`PgDatabase` value. -/

/-- The read-only catalog facts the orchestrators consume:
`pg_available_extensions` (per-extension versions), `pg_stat_all_indexes`
(index-to-table ownership, `null`/absent rows collapsed to `none`), and
`pg_attribute` (the `atttypmod` dimension of a table's `embedding`
column). -/
structure PgDatabase where
  extensionVersions : DatabaseExtension → ExtensionVersion
  indexTable : VectorIndex → Option String
  dimSize : String → Option Int

/-- Which connection a statement was executed on: the shared pool
(`this.db`) or the open transaction (`tx`). -/
inductive SqlChannel
  | mainDb
  | tx
  deriving DecidableEq, Repr

/-- One executed side effect, in program order. -/
inductive DbEvent
  | logReindex (index : String)
  | warnMissingTable (index : String)
  | setSearchPath
  | alterExtension (extension : DatabaseExtension) (target : SemVer)
  | pgvectorsUpgrade
  | dropIndex (ch : SqlChannel) (index : String)
  | alterColumnType (ch : SqlChannel) (table : String) (typeName : String)
  | createIndexStmt (ch : SqlChannel) (stmt : String)
  deriving DecidableEq, Repr

/-- `DatabaseRepository.getDimSize` (lines 196-212): read `atttypmod` for
the table's `embedding` column and require
`isValidInteger(dimSize, min 1, max 2 ** 16)`; an absent row or an
out-of-range value throws. -/
def getDimSize (db : PgDatabase) (table : String) : Except String Int :=
  match db.dimSize table with
  | some d => if 1 ≤ d ∧ d ≤ 65536 then .ok d else .error "Could not retrieve dimension size"
  | none => .error "Could not retrieve dimension size"

/-- `DatabaseRepository.reindex` (lines 134-152): log, resolve the owning
table (a missing or empty `relname` is a logged no-op), resolve the
dimension size, then inside `db.transaction()` drop the old index — executed
on `this.db`, hence on the `mainDb` channel, outside the transaction —
widen the `embedding` column to `real[]`, narrow it to the (possibly
schema-qualified) vector type of the resolved dimension, and run the
`createVectorIndex` statement. -/
def reindex (db : PgDatabase) (vectorExtension : DatabaseExtension) (index : VectorIndex) :
    Except String Unit × List DbEvent :=
  let name := vectorIndexName index
  let ev0 : List DbEvent := [.logReindex name]
  match db.indexTable index with
  | none => (.ok (), ev0 ++ [.warnMissingTable name])
  | some table =>
    if table = "" then (.ok (), ev0 ++ [.warnMissingTable name])
    else
      match getDimSize db table with
      | .error e => (.error e, ev0)
      | .ok dimSize =>
        let schema := if vectorExtension = .vectors then "vectors." else ""
        let dropEv := DbEvent.dropIndex .mainDb name
        let widenEv := DbEvent.alterColumnType .tx table "real[]"
        let narrowEv := DbEvent.alterColumnType .tx table
          (schema ++ "vector(" ++ toString dimSize ++ ")")
        match createVectorIndex vectorExtension table name with
        | .ok stmt => (.ok (), ev0 ++ [dropEv, widenEv, narrowEv, .createIndexStmt .tx stmt])
        | .error e => (.error e, ev0 ++ [dropEv, widenEv, narrowEv])

/-- `DatabaseRepository.updateVectorExtension` (lines 104-132): read the
extension versions and fail if not installed or no version is available;
default the target to the available version; inside one transaction set the
search path, run `ALTER EXTENSION ... UPDATE TO target`, then either call
`pgvectors_upgrade()` (legacy vectors kind with a minor or major version
delta, `restartRequired = true`) or reindex both known vector indexes
(`Promise.all`, modelled by concatenating both event lists and propagating
the first failure). `vectorExtension` is the active kind the nested
`reindex` calls consult. -/
def updateVectorExtension (db : PgDatabase) (vectorExtension : DatabaseExtension)
    (extension : DatabaseExtension) (targetVersion : Option SemVer) :
    Except String VectorUpdateResult × List DbEvent :=
  match (db.extensionVersions extension).installedVersion with
  | none => (.error (extensionName extension ++ " extension is not installed"), [])
  | some installedVersion =>
    match (db.extensionVersions extension).availableVersion with
    | none => (.error ("No available version for " ++ extensionName extension ++ " extension"), [])
    | some availableVersion =>
      let target := targetVersion.getD availableVersion
      let isVectors := extension = DatabaseExtension.vectors
      let ev0 : List DbEvent := [.setSearchPath, .alterExtension extension target]
      let diff := semverDiff installedVersion target
      if isVectors ∧ (diff = some .minor ∨ diff = some .major) then
        (.ok ⟨true⟩, ev0 ++ [.pgvectorsUpgrade])
      else
        let r1 := reindex db vectorExtension .clip
        let r2 := reindex db vectorExtension .face
        match r1.1, r2.1 with
        | .ok _, .ok _ => (.ok ⟨false⟩, ev0 ++ r1.2 ++ r2.2)
        | .error e, _ => (.error e, ev0 ++ r1.2 ++ r2.2)
        | _, .error e => (.error e, ev0 ++ r1.2 ++ r2.2)

/-- Reindex always emits its initial log event, whatever branch it takes:
the observable marker that a reindex was invoked. -/
theorem logReindex_mem_reindex (db : PgDatabase) (vext : DatabaseExtension) (idx : VectorIndex) :
    DbEvent.logReindex (vectorIndexName idx) ∈ (reindex db vext idx).2 := by
  unfold reindex
  cases db.indexTable idx with
  | none => simp
  | some table =>
    by_cases ht : table = ""
    · simp [ht]
    · simp only [if_neg ht]
      cases getDimSize db table with
      | error e => simp
      | ok d =>
        cases createVectorIndex vext table (vectorIndexName idx) with
        | ok s => simp
        | error e => simp

/-- C8: when the owning table of an index cannot be resolved, `reindex`
logs the miss, completes without error, and performs no schema mutation. -/
theorem C8_reindex_missing_table_noop :
    ∀ (db : PgDatabase) (vext : DatabaseExtension) (index : VectorIndex),
      (db.indexTable index = none ∨ db.indexTable index = some "") →
      reindex db vext index =
        (.ok (), [.logReindex (vectorIndexName index), .warnMissingTable (vectorIndexName index)]) := by
  intro db vext index h
  rcases h with h | h <;> simp [reindex, h]

/-- Witness for C8 on a catalog with no index-to-table rows. -/
theorem C8_reindex_missing_table_noop_witness :
    ((PgDatabase.mk (fun _ => ⟨none, none⟩) (fun _ => none) (fun _ => none)).indexTable .clip = none ∨
      (PgDatabase.mk (fun _ => ⟨none, none⟩) (fun _ => none) (fun _ => none)).indexTable .clip = some "") ∧
    reindex (PgDatabase.mk (fun _ => ⟨none, none⟩) (fun _ => none) (fun _ => none))
        DatabaseExtension.vector VectorIndex.clip =
      (.ok (), [.logReindex "clip_index", .warnMissingTable "clip_index"]) :=
  ⟨Or.inl rfl,
    C8_reindex_missing_table_noop (PgDatabase.mk (fun _ => ⟨none, none⟩) (fun _ => none) (fun _ => none))
      DatabaseExtension.vector VectorIndex.clip (Or.inl rfl)⟩

/-- The success path of `reindex` with every resolution hypothesis supplied:
the exact event sequence, shared by several results below. -/
theorem reindex_success_eq (db : PgDatabase) (vext : DatabaseExtension) (index : VectorIndex)
    (table : String) (d : Int) (stmt : String)
    (htab : db.indexTable index = some table) (hne : table ≠ "")
    (hdim : db.dimSize table = some d) (h1 : 1 ≤ d) (h2 : d ≤ 65536)
    (hcvi : createVectorIndex vext table (vectorIndexName index) = .ok stmt) :
    reindex db vext index =
      (.ok (), [.logReindex (vectorIndexName index),
        .dropIndex .mainDb (vectorIndexName index),
        .alterColumnType .tx table "real[]",
        .alterColumnType .tx table
          ((if vext = .vectors then "vectors." else "") ++ "vector(" ++ toString d ++ ")"),
        .createIndexStmt .tx stmt]) := by
  have hrange : 1 ≤ d ∧ d ≤ 65536 := ⟨h1, h2⟩
  simp [reindex, getDimSize, htab, hdim, hne, if_pos hrange, hcvi]

/-- C7: with the owning table resolved, the dimension must be an integer in
`[1, 65536]` or `reindex` fails before any schema mutation; on success the
order of effects is: drop the index on the pool connection (outside the
transaction), then inside the transaction widen the column to `real[]`,
narrow it to the vector type of the resolved dimension, and create the
index. -/
theorem C7_reindex_dim_and_order :
    ∀ (db : PgDatabase) (vext : DatabaseExtension) (index : VectorIndex) (table : String),
      db.indexTable index = some table → table ≠ "" →
      (db.dimSize table = none →
        (reindex db vext index).1 = .error "Could not retrieve dimension size" ∧
        (reindex db vext index).2 = [.logReindex (vectorIndexName index)]) ∧
      (∀ d : Int, db.dimSize table = some d → ¬ (1 ≤ d ∧ d ≤ 65536) →
        (reindex db vext index).1 = .error "Could not retrieve dimension size" ∧
        (reindex db vext index).2 = [.logReindex (vectorIndexName index)]) ∧
      (∀ (d : Int) (stmt : String), db.dimSize table = some d → 1 ≤ d → d ≤ 65536 →
        createVectorIndex vext table (vectorIndexName index) = .ok stmt →
        reindex db vext index =
          (.ok (), [.logReindex (vectorIndexName index),
            .dropIndex .mainDb (vectorIndexName index),
            .alterColumnType .tx table "real[]",
            .alterColumnType .tx table
              ((if vext = .vectors then "vectors." else "") ++ "vector(" ++ toString d ++ ")"),
            .createIndexStmt .tx stmt])) := by
  intro db vext index table htab hne
  refine ⟨?_, ?_, ?_⟩
  · intro hdim
    simp [reindex, getDimSize, htab, hdim, hne]
  · intro d hdim hrange
    constructor <;>
      simp [reindex, getDimSize, htab, hdim, hne, if_neg hrange]
  · intro d stmt hdim h1 h2 hcvi
    exact reindex_success_eq db vext index table d stmt htab hne hdim h1 h2 hcvi

/-- Witness for C7: a catalog resolving `clip_index` to `smart_search` with
dimension 512 under the native vector kind. -/
theorem C7_reindex_dim_and_order_witness :
    (PgDatabase.mk (fun _ => ⟨none, none⟩) (fun _ => some "smart_search")
        (fun _ => some 512)).indexTable .clip = some "smart_search" ∧
    ("smart_search" : String) ≠ "" ∧
    (PgDatabase.mk (fun _ => ⟨none, none⟩) (fun _ => some "smart_search")
        (fun _ => some 512)).dimSize "smart_search" = some 512 ∧
    (1 : Int) ≤ 512 ∧ (512 : Int) ≤ 65536 ∧
    reindex (PgDatabase.mk (fun _ => ⟨none, none⟩) (fun _ => some "smart_search")
        (fun _ => some 512)) DatabaseExtension.vector VectorIndex.clip =
      (.ok (), [.logReindex "clip_index",
        .dropIndex .mainDb "clip_index",
        .alterColumnType .tx "smart_search" "real[]",
        .alterColumnType .tx "smart_search"
          ((if DatabaseExtension.vector = DatabaseExtension.vectors then "vectors." else "") ++
            "vector(" ++ toString (512 : Int) ++ ")"),
        .createIndexStmt .tx
          ("\n        CREATE INDEX IF NOT EXISTS " ++ "clip_index" ++ "\n        ON " ++
            "smart_search" ++ "\n        USING hnsw (embedding vector_cosine_ops)")]) :=
  ⟨rfl, by decide, rfl, by decide, by decide,
    (C7_reindex_dim_and_order
      (PgDatabase.mk (fun _ => ⟨none, none⟩) (fun _ => some "smart_search") (fun _ => some 512))
      DatabaseExtension.vector VectorIndex.clip "smart_search" rfl (by decide)).2.2
      512 _ rfl (by decide) (by decide) rfl⟩

/-- C10: in the rebuild transaction the column's final retype target is the
schema-qualified `vectors.vector(d)` exactly for the legacy vectors kind,
and the unqualified `vector(d)` for the two other supported kinds. -/
theorem C10_reindex_vector_type_qualification :
    ∀ (db : PgDatabase) (index : VectorIndex) (table : String) (d : Int),
      db.indexTable index = some table → table ≠ "" →
      db.dimSize table = some d → 1 ≤ d → d ≤ 65536 →
      (∀ stmt, createVectorIndex .vectors table (vectorIndexName index) = .ok stmt →
        (reindex db .vectors index).2 =
          [.logReindex (vectorIndexName index),
            .dropIndex .mainDb (vectorIndexName index),
            .alterColumnType .tx table "real[]",
            .alterColumnType .tx table ("vectors.vector(" ++ toString d ++ ")"),
            .createIndexStmt .tx stmt]) ∧
      (∀ vext, (vext = DatabaseExtension.vector ∨ vext = DatabaseExtension.vectorchord) →
        ∀ stmt, createVectorIndex vext table (vectorIndexName index) = .ok stmt →
        (reindex db vext index).2 =
          [.logReindex (vectorIndexName index),
            .dropIndex .mainDb (vectorIndexName index),
            .alterColumnType .tx table "real[]",
            .alterColumnType .tx table ("vector(" ++ toString d ++ ")"),
            .createIndexStmt .tx stmt]) := by
  intro db index table d htab hne hdim h1 h2
  have hrange : 1 ≤ d ∧ d ≤ 65536 := ⟨h1, h2⟩
  constructor
  · intro stmt hcvi
    have hq : ((if DatabaseExtension.vectors = DatabaseExtension.vectors
        then "vectors." else "") ++ "vector(" ++ toString d ++ ")") =
        ("vectors.vector(" ++ toString d ++ ")") := by
      rw [if_pos rfl]
      rw [show ("vectors." ++ "vector(" : String) = "vectors.vector(" from rfl]
    have := congrArg Prod.snd
      (reindex_success_eq db .vectors index table d stmt htab hne hdim h1 h2 hcvi)
    rw [this, hq]
  · intro vext hv stmt hcvi
    have hnv : vext ≠ DatabaseExtension.vectors := by
      rcases hv with hv | hv <;> rw [hv] <;> simp
    have hq : ((if vext = DatabaseExtension.vectors then "vectors." else "") ++
        "vector(" ++ toString d ++ ")") = ("vector(" ++ toString d ++ ")") := by
      rw [if_neg hnv]
      rw [show (("" : String) ++ "vector(") = "vector(" from rfl]
    have := congrArg Prod.snd
      (reindex_success_eq db vext index table d stmt htab hne hdim h1 h2 hcvi)
    rw [this, hq]

/-- A concrete catalog for witnesses: the legacy vectors extension sits at
installed 1.0.0 with 2.0.0 available (a major delta), every other extension
at installed 1.0.0 with 1.0.1 available (a patch delta); every index
resolves to `smart_search` with embedding dimension 512. -/
def upgradeCatalog : PgDatabase :=
  PgDatabase.mk
    (fun e => match e with
      | .vectors => ⟨some ⟨2, 0, 0⟩, some ⟨1, 0, 0⟩⟩
      | _ => ⟨some ⟨1, 0, 1⟩, some ⟨1, 0, 0⟩⟩)
    (fun _ => some "smart_search")
    (fun _ => some 512)

/-- Witness for C10 at the concrete catalog, for the legacy vectors kind
(schema-qualified type) and the native vector kind (unqualified type). -/
theorem C10_reindex_vector_type_qualification_witness :
    upgradeCatalog.indexTable .clip = some "smart_search" ∧
    ("smart_search" : String) ≠ "" ∧
    upgradeCatalog.dimSize "smart_search" = some 512 ∧
    (1 : Int) ≤ 512 ∧ (512 : Int) ≤ 65536 ∧
    (∃ stmt, createVectorIndex .vectors "smart_search" "clip_index" = .ok stmt) ∧
    (reindex upgradeCatalog .vectors .clip).2 =
      [.logReindex "clip_index",
        .dropIndex .mainDb "clip_index",
        .alterColumnType .tx "smart_search" "real[]",
        .alterColumnType .tx "smart_search" ("vectors.vector(" ++ toString (512 : Int) ++ ")"),
        .createIndexStmt .tx
          ("\n        CREATE INDEX IF NOT EXISTS " ++ "clip_index" ++ " ON " ++ "smart_search" ++
            " USING vectors (embedding vector_cos_ops) WITH (options = $$\n        [indexing.hnsw]\n        m = 16\n        ef_construction = 300\n        $$)")] ∧
    (reindex upgradeCatalog .vector .clip).2 =
      [.logReindex "clip_index",
        .dropIndex .mainDb "clip_index",
        .alterColumnType .tx "smart_search" "real[]",
        .alterColumnType .tx "smart_search" ("vector(" ++ toString (512 : Int) ++ ")"),
        .createIndexStmt .tx
          ("\n        CREATE INDEX IF NOT EXISTS " ++ "clip_index" ++ "\n        ON " ++
            "smart_search" ++ "\n        USING hnsw (embedding vector_cosine_ops)")] :=
  ⟨rfl, by decide, rfl, by decide, by decide, ⟨_, rfl⟩,
    (C10_reindex_vector_type_qualification upgradeCatalog VectorIndex.clip "smart_search" 512
      rfl (by decide) rfl (by decide) (by decide)).1 _ rfl,
    (C10_reindex_vector_type_qualification upgradeCatalog VectorIndex.clip "smart_search" 512
      rfl (by decide) rfl (by decide) (by decide)).2 DatabaseExtension.vector (Or.inl rfl) _ rfl⟩

/-- C4: `updateVectorExtension` fails before any mutation when the installed
or available version is absent; with both present and target defaulted to
the available version, it skips reindexing and reports
`restartRequired = true` exactly when the kind is the legacy vectors
extension and the installed-to-target delta is minor or major (running
`pgvectors_upgrade` instead); in every other case it reindexes both known
vector indexes and reports `restartRequired = false`. -/
theorem C4_updateVectorExtension_policy :
    ∀ (db : PgDatabase) (active ext : DatabaseExtension) (tv : Option SemVer),
      ((db.extensionVersions ext).installedVersion = none →
        (∃ e, (updateVectorExtension db active ext tv).1 = .error e) ∧
        (updateVectorExtension db active ext tv).2 = []) ∧
      ((db.extensionVersions ext).availableVersion = none →
        (∃ e, (updateVectorExtension db active ext tv).1 = .error e) ∧
        (updateVectorExtension db active ext tv).2 = []) ∧
      (∀ installed available,
        (db.extensionVersions ext).installedVersion = some installed →
        (db.extensionVersions ext).availableVersion = some available →
        ((ext = DatabaseExtension.vectors ∧
            (semverDiff installed (tv.getD available) = some .minor ∨
              semverDiff installed (tv.getD available) = some .major)) →
          updateVectorExtension db active ext tv =
            (.ok ⟨true⟩,
              [.setSearchPath, .alterExtension ext (tv.getD available), .pgvectorsUpgrade])) ∧
        (¬ (ext = DatabaseExtension.vectors ∧
            (semverDiff installed (tv.getD available) = some .minor ∨
              semverDiff installed (tv.getD available) = some .major)) →
          (reindex db active .clip).1 = .ok () →
          (reindex db active .face).1 = .ok () →
          (updateVectorExtension db active ext tv).1 = .ok ⟨false⟩ ∧
          (updateVectorExtension db active ext tv).2 =
            [.setSearchPath, .alterExtension ext (tv.getD available)] ++
              (reindex db active .clip).2 ++ (reindex db active .face).2 ∧
          DbEvent.logReindex "clip_index" ∈ (updateVectorExtension db active ext tv).2 ∧
          DbEvent.logReindex "face_index" ∈ (updateVectorExtension db active ext tv).2)) := by
  intro db active ext tv
  refine ⟨?_, ?_, ?_⟩
  · intro h
    unfold updateVectorExtension
    rw [h]
    exact ⟨⟨_, rfl⟩, rfl⟩
  · intro h
    cases hi : (db.extensionVersions ext).installedVersion with
    | none =>
      unfold updateVectorExtension
      rw [hi]
      exact ⟨⟨_, rfl⟩, rfl⟩
    | some installed =>
      unfold updateVectorExtension
      rw [hi, h]
      exact ⟨⟨_, rfl⟩, rfl⟩
  · intro installed available hi ha
    constructor
    · intro hcond
      simp only [updateVectorExtension, hi, ha]
      rw [if_pos hcond]
      rfl
    · intro hneg h1 h2
      simp only [updateVectorExtension, hi, ha]
      rw [if_neg hneg, h1, h2]
      refine ⟨rfl, rfl, ?_, ?_⟩
      · exact List.mem_append.mpr
          (Or.inl (List.mem_append.mpr (Or.inr (logReindex_mem_reindex db active .clip))))
      · exact List.mem_append.mpr (Or.inr (logReindex_mem_reindex db active .face))

/-- Witness for C4 at the concrete catalog: a major delta on the legacy
vectors kind skips reindexing and requires a restart; a patch delta on the
native kind reindexes both indexes without a restart. -/
theorem C4_updateVectorExtension_policy_witness :
    (upgradeCatalog.extensionVersions .vectors).installedVersion = some ⟨1, 0, 0⟩ ∧
    (upgradeCatalog.extensionVersions .vectors).availableVersion = some ⟨2, 0, 0⟩ ∧
    (DatabaseExtension.vectors = DatabaseExtension.vectors ∧
      (semverDiff ⟨1, 0, 0⟩ ((none : Option SemVer).getD ⟨2, 0, 0⟩) = some .minor ∨
        semverDiff ⟨1, 0, 0⟩ ((none : Option SemVer).getD ⟨2, 0, 0⟩) = some .major)) ∧
    updateVectorExtension upgradeCatalog .vector .vectors none =
      (.ok ⟨true⟩,
        [.setSearchPath,
          .alterExtension .vectors ((none : Option SemVer).getD ⟨2, 0, 0⟩),
          .pgvectorsUpgrade]) ∧
    (upgradeCatalog.extensionVersions .vector).installedVersion = some ⟨1, 0, 0⟩ ∧
    (upgradeCatalog.extensionVersions .vector).availableVersion = some ⟨1, 0, 1⟩ ∧
    ¬ (DatabaseExtension.vector = DatabaseExtension.vectors ∧
        (semverDiff ⟨1, 0, 0⟩ ((none : Option SemVer).getD ⟨1, 0, 1⟩) = some .minor ∨
          semverDiff ⟨1, 0, 0⟩ ((none : Option SemVer).getD ⟨1, 0, 1⟩) = some .major)) ∧
    (reindex upgradeCatalog .vector .clip).1 = .ok () ∧
    (reindex upgradeCatalog .vector .face).1 = .ok () ∧
    ((updateVectorExtension upgradeCatalog .vector .vector none).1 = .ok ⟨false⟩ ∧
      (updateVectorExtension upgradeCatalog .vector .vector none).2 =
        [.setSearchPath, .alterExtension .vector ((none : Option SemVer).getD ⟨1, 0, 1⟩)] ++
          (reindex upgradeCatalog .vector .clip).2 ++ (reindex upgradeCatalog .vector .face).2 ∧
      DbEvent.logReindex "clip_index" ∈ (updateVectorExtension upgradeCatalog .vector .vector none).2 ∧
      DbEvent.logReindex "face_index" ∈ (updateVectorExtension upgradeCatalog .vector .vector none).2) :=
  ⟨rfl, rfl, ⟨rfl, Or.inr (by decide)⟩,
    ((C4_updateVectorExtension_policy upgradeCatalog .vector .vectors none).2.2
      ⟨1, 0, 0⟩ ⟨2, 0, 0⟩ rfl rfl).1 ⟨rfl, Or.inr (by decide)⟩,
    rfl, rfl, by decide, rfl, rfl,
    ((C4_updateVectorExtension_policy upgradeCatalog .vector .vector none).2.2
      ⟨1, 0, 0⟩ ⟨1, 0, 1⟩ rfl rfl).2 (by decide) rfl rfl⟩

/-! ## Two-tier locking, sequential model

One invocation of `withLock`, `tryLock` or `wait` is modelled as a function
on an explicit lock state, recording its primitive lock operations as an
event trace. Blocking primitives (`asyncLock.acquire`, `pg_advisory_lock`)
only complete when the resource is free, so theorems about a completed call
carry the corresponding freeness preconditions. -/

/-- Process-wide lock state: which in-process mutex keys are held, which
advisory-lock ids are held and by which connection session, and a counter
handing out fresh pooled connections (`db.connection()` yields a connection
whose session the advisory primitives are scoped to). -/
structure LockConnState where
  mutexHeld : String → Bool
  advisory : Nat → Option Nat
  nextConn : Nat

/-- Primitive lock operations, in execution order. -/
inductive LockEvent
  | acquireMutexKey (key : String)
  | releaseMutexKey (key : String)
  | advisoryLockOn (conn : Nat) (id : Nat)
  | advisoryUnlockOn (conn : Nat) (id : Nat)
  | tryAdvisoryLockOn (conn : Nat) (id : Nat) (got : Bool)
  | opStarted
  deriving DecidableEq, Repr

/-- `DatabaseRepository.withLock` (lines 225-239): acquire the in-process
mutex keyed by the enum name, obtain a dedicated connection, issue
`pg_advisory_lock` on it, run the callback, and in the `finally` block issue
`pg_advisory_unlock` on that same connection (releasing only a hold of this
session), then leave the connection scope and release the mutex. The
callback acts on caller state `U` and may fail; its failure re-raises after
the cleanup. -/
def withLock {R E U : Type} (lock : DatabaseLock) (op : U → Except E (R × U))
    (s : LockConnState) (u : U) : Except E R × LockConnState × U × List LockEvent :=
  let key := lockName lock
  let id := lockId lock
  let s1 : LockConnState :=
    { s with mutexHeld := fun k => if k = key then true else s.mutexHeld k }
  let c := s1.nextConn
  let s2 : LockConnState := { s1 with nextConn := s1.nextConn + 1 }
  let s3 : LockConnState :=
    { s2 with advisory := fun i => if i = id then some c else s2.advisory i }
  let result := op u
  let s4 : LockConnState :=
    { s3 with advisory := fun i => if i = id ∧ s3.advisory i = some c then none else s3.advisory i }
  let s5 : LockConnState :=
    { s4 with mutexHeld := fun k => if k = key then false else s4.mutexHeld k }
  let trace : List LockEvent :=
    [.acquireMutexKey key, .advisoryLockOn c id, .opStarted, .advisoryUnlockOn c id,
      .releaseMutexKey key]
  match result with
  | .ok (r, u2) => (.ok r, s5, u2, trace)
  | .error e => (.error e, s5, u, trace)

/-- `DatabaseRepository.tryLock` (lines 241-243, 257-262): on a pooled
connection, `SELECT pg_try_advisory_lock(lock)` and return its boolean; a
free id is taken by this session, a hold by the same session succeeds again,
a hold by another session reports `false`. Nothing is ever unlocked. -/
def tryLock (lock : DatabaseLock) (s : LockConnState) :
    Bool × LockConnState × List LockEvent :=
  let id := lockId lock
  let c := s.nextConn
  let s1 : LockConnState := { s with nextConn := s.nextConn + 1 }
  match s1.advisory id with
  | none =>
    (true, { s1 with advisory := fun i => if i = id then some c else s1.advisory i },
      [.tryAdvisoryLockOn c id true])
  | some c2 =>
    if c2 = c then (true, s1, [.tryAdvisoryLockOn c id true])
    else (false, s1, [.tryAdvisoryLockOn c id false])

/-- `DatabaseRepository.wait` (lines 249-251): `asyncLock.acquire` on the
lock's key with an empty callback — the mutex is acquired and immediately
released; the advisory lock is never touched. -/
def wait (lock : DatabaseLock) (s : LockConnState) : LockConnState × List LockEvent :=
  let key := lockName lock
  let s1 : LockConnState :=
    { s with mutexHeld := fun k => if k = key then true else s.mutexHeld k }
  let s2 : LockConnState :=
    { s1 with mutexHeld := fun k => if k = key then false else s1.mutexHeld k }
  (s2, [.acquireMutexKey key, .releaseMutexKey key])

/-- The all-free initial lock state. -/
def initLockState : LockConnState :=
  ⟨fun _ => false, fun _ => none, 0⟩

/-- C1: whenever `withLock` exits — on a callback value or a callback
failure — the advisory lock has been unlocked on the very connection that
locked it, the in-process mutex is released, the callback's outcome
(value or failure) is propagated unchanged, and a subsequent `tryLock`
succeeds. -/
theorem C1_withLock_scoped_release :
    ∀ (R E U : Type) (lock : DatabaseLock) (op : U → Except E (R × U))
      (s : LockConnState) (u : U),
      s.mutexHeld (lockName lock) = false →
      s.advisory (lockId lock) = none →
      (withLock lock op s u).2.1.mutexHeld (lockName lock) = false ∧
      (withLock lock op s u).2.1.advisory (lockId lock) = none ∧
      (withLock lock op s u).2.2.2 =
        [.acquireMutexKey (lockName lock), .advisoryLockOn s.nextConn (lockId lock),
          .opStarted, .advisoryUnlockOn s.nextConn (lockId lock),
          .releaseMutexKey (lockName lock)] ∧
      (∀ e, op u = .error e → (withLock lock op s u).1 = .error e) ∧
      (∀ r u2, op u = .ok (r, u2) →
        (withLock lock op s u).1 = .ok r ∧ (withLock lock op s u).2.2.1 = u2) ∧
      (tryLock lock (withLock lock op s u).2.1).1 = true := by
  intro R E U lock op s u hm ha
  have hstate : (withLock lock op s u).2.1 =
      { mutexHeld := fun k => if k = lockName lock then false
          else if k = lockName lock then true else s.mutexHeld k,
        advisory := fun i => if i = lockId lock ∧
            (if i = lockId lock then some s.nextConn else s.advisory i) = some s.nextConn
          then none else if i = lockId lock then some s.nextConn else s.advisory i,
        nextConn := s.nextConn + 1 } := by
    unfold withLock
    cases op u with
    | ok p => rfl
    | error e => rfl
  have htrace : (withLock lock op s u).2.2.2 =
      [.acquireMutexKey (lockName lock), .advisoryLockOn s.nextConn (lockId lock),
        .opStarted, .advisoryUnlockOn s.nextConn (lockId lock),
        .releaseMutexKey (lockName lock)] := by
    unfold withLock
    cases op u with
    | ok p => rfl
    | error e => rfl
  refine ⟨?_, ?_, htrace, ?_, ?_, ?_⟩
  · rw [hstate]
    simp
  · rw [hstate]
    simp
  · intro e he
    unfold withLock
    rw [he]
  · intro r u2 hok
    unfold withLock
    rw [hok]
    exact ⟨rfl, rfl⟩
  · rw [hstate]
    simp [tryLock]

/-- A callback that returns a value, used by the C1 witness. -/
def okOp : Nat → Except String (Nat × Nat) := fun u => .ok (37, u + 1)

/-- A callback that raises, used by the C1 witness. -/
def errOp : Nat → Except String (Nat × Nat) := fun _ => .error "boom"

/-- Witness for C1: a successful callback and a failing callback, both from
the free initial state. -/
theorem C1_withLock_scoped_release_witness :
    initLockState.mutexHeld (lockName DatabaseLock.migrations) = false ∧
    initLockState.advisory (lockId DatabaseLock.migrations) = none ∧
    (withLock DatabaseLock.migrations okOp initLockState 0).2.1.mutexHeld
      (lockName DatabaseLock.migrations) = false ∧
    (withLock DatabaseLock.migrations okOp initLockState 0).2.1.advisory
      (lockId DatabaseLock.migrations) = none ∧
    (tryLock DatabaseLock.migrations
      (withLock DatabaseLock.migrations okOp initLockState 0).2.1).1 = true ∧
    (withLock DatabaseLock.migrations okOp initLockState 0).1 = Except.ok 37 ∧
    (withLock DatabaseLock.migrations errOp initLockState 0).1 = Except.error "boom" :=
  ⟨rfl, rfl,
    (C1_withLock_scoped_release Nat String Nat DatabaseLock.migrations okOp
      initLockState 0 rfl rfl).1,
    (C1_withLock_scoped_release Nat String Nat DatabaseLock.migrations okOp
      initLockState 0 rfl rfl).2.1,
    (C1_withLock_scoped_release Nat String Nat DatabaseLock.migrations okOp
      initLockState 0 rfl rfl).2.2.2.2.2,
    ((C1_withLock_scoped_release Nat String Nat DatabaseLock.migrations okOp
      initLockState 0 rfl rfl).2.2.2.2.1 37 1 rfl).1,
    ((C1_withLock_scoped_release Nat String Nat DatabaseLock.migrations errOp
      initLockState 0 rfl rfl).2.2.2.1 "boom" rfl)⟩

/-- C3 counterexample: from a state with no other holder, `tryLock` obtains
the advisory lock and returns, leaving the lock held by the probing
session — the lock is not as free after the call as before it, and a second
probe (on a fresh pooled connection) now fails. This refutes the claim that
`tryLock` does not leave the advisory lock held past the probe:
`acquireTryLock` runs `pg_try_advisory_lock` and nothing ever unlocks it. -/
theorem C3_tryLock_probe_counterexample :
    initLockState.advisory (lockId DatabaseLock.migrations) = none ∧
    (tryLock DatabaseLock.migrations initLockState).1 = true ∧
    (tryLock DatabaseLock.migrations initLockState).2.1.advisory
      (lockId DatabaseLock.migrations) = some 0 ∧
    (tryLock DatabaseLock.migrations
      (tryLock DatabaseLock.migrations initLockState).2.1).1 = false := by
  refine ⟨rfl, rfl, ?_, ?_⟩ <;> decide

/-- C3 amended: `tryLock` attempts only the database advisory lock without
blocking and without touching the in-process mutex, and returns whether it
was obtained; but when it succeeds from a free state the advisory lock
remains held by the probing connection's session after the call (it is not
released by the probe). -/
theorem C3_tryLock_amended :
    ∀ (lock : DatabaseLock) (s : LockConnState),
      (tryLock lock s).2.1.mutexHeld = s.mutexHeld ∧
      (s.advisory (lockId lock) = none →
        (tryLock lock s).1 = true ∧
        (tryLock lock s).2.1.advisory (lockId lock) = some s.nextConn) ∧
      (∀ c2, s.advisory (lockId lock) = some c2 → c2 ≠ s.nextConn →
        (tryLock lock s).1 = false ∧
        (tryLock lock s).2.1.advisory = s.advisory) := by
  intro lock s
  refine ⟨?_, ?_, ?_⟩
  · simp only [tryLock]
    cases h : s.advisory (lockId lock) with
    | none => rfl
    | some c2 =>
      dsimp only
      by_cases hc : c2 = s.nextConn
      · rw [if_pos hc]
      · rw [if_neg hc]
  · intro h
    simp only [tryLock]
    rw [h]
    exact ⟨rfl, by simp⟩
  · intro c2 h hne
    simp only [tryLock]
    rw [h]
    dsimp only
    rw [if_neg hne]
    exact ⟨rfl, rfl⟩

/-- Witness for C3 amended: the free state (probe succeeds and keeps the
lock) and a state where connection 5 holds the lock (probe fails, state
unchanged). -/
theorem C3_tryLock_amended_witness :
    initLockState.advisory (lockId DatabaseLock.migrations) = none ∧
    ((tryLock DatabaseLock.migrations initLockState).1 = true ∧
      (tryLock DatabaseLock.migrations initLockState).2.1.advisory
        (lockId DatabaseLock.migrations) = some initLockState.nextConn) ∧
    (LockConnState.mk (fun _ => false) (fun _ => some 5) 0).advisory
      (lockId DatabaseLock.migrations) = some 5 ∧
    (5 : Nat) ≠ (LockConnState.mk (fun _ => false) (fun _ => some 5) 0).nextConn ∧
    ((tryLock DatabaseLock.migrations (LockConnState.mk (fun _ => false) (fun _ => some 5) 0)).1 = false ∧
      (tryLock DatabaseLock.migrations
        (LockConnState.mk (fun _ => false) (fun _ => some 5) 0)).2.1.advisory =
        (LockConnState.mk (fun _ => false) (fun _ => some 5) 0).advisory) ∧
    (tryLock DatabaseLock.migrations initLockState).2.1.mutexHeld = initLockState.mutexHeld :=
  ⟨rfl,
    (C3_tryLock_amended DatabaseLock.migrations initLockState).2.1 rfl,
    rfl, by decide,
    (C3_tryLock_amended DatabaseLock.migrations
      (LockConnState.mk (fun _ => false) (fun _ => some 5) 0)).2.2 5 rfl (by decide),
    (C3_tryLock_amended DatabaseLock.migrations initLockState).1⟩

/-- C9 counterexample: `wait` is implemented as `asyncLock.acquire` with an
empty callback, so its own trace begins by acquiring the in-process mutex
key — refuting the claim that `wait` returns without itself acquiring
anything. -/
theorem C9_wait_counterexample :
    (wait DatabaseLock.migrations initLockState).2 =
      [.acquireMutexKey (lockName DatabaseLock.migrations),
        .releaseMutexKey (lockName DatabaseLock.migrations)] ∧
    LockEvent.acquireMutexKey (lockName DatabaseLock.migrations) ∈
      (wait DatabaseLock.migrations initLockState).2 := by
  exact ⟨rfl, by decide⟩

/-- C9 amended: `wait` suspends until the in-process mutex for the lock is
free by acquiring the mutex with an empty critical section and releasing it
at once; after it returns the lock state is unchanged, and it never touches
the database advisory lock. -/
theorem C9_wait_amended :
    ∀ (lock : DatabaseLock) (s : LockConnState),
      s.mutexHeld (lockName lock) = false →
      (wait lock s).1 = s ∧
      (wait lock s).1.advisory = s.advisory ∧
      (wait lock s).2 =
        [.acquireMutexKey (lockName lock), .releaseMutexKey (lockName lock)] := by
  intro lock s hm
  refine ⟨?_, rfl, rfl⟩
  unfold wait
  have hfun : (fun k => if k = lockName lock then false
      else if k = lockName lock then true else s.mutexHeld k) = s.mutexHeld := by
    funext k
    by_cases hk : k = lockName lock
    · rw [if_pos hk, hk, hm]
    · rw [if_neg hk, if_neg hk]
  cases s with
  | mk m a n =>
    simp only at hfun ⊢
    rw [hfun]

/-- Witness for C9 amended at the free initial state. -/
theorem C9_wait_amended_witness :
    initLockState.mutexHeld (lockName DatabaseLock.migrations) = false ∧
    (wait DatabaseLock.migrations initLockState).1 = initLockState ∧
    (wait DatabaseLock.migrations initLockState).1.advisory = initLockState.advisory ∧
    (wait DatabaseLock.migrations initLockState).2 =
      [.acquireMutexKey (lockName DatabaseLock.migrations),
        .releaseMutexKey (lockName DatabaseLock.migrations)] :=
  ⟨rfl, C9_wait_amended DatabaseLock.migrations initLockState rfl⟩

/-! ## Two-tier locking, interleaved model

Mutual exclusion is a property of interleavings, so `withLock` is also
modelled as a labelled transition system: each thread walks through the
acquisition phases of `withLock` (in-process mutex by enum-name key, then
the advisory lock by numeric id on its dedicated session, then the callback,
then the two releases in `finally` order), and any number of threads from
any number of processes interleave their steps. Blocking acquisition is a
step that is only enabled while the resource is free. -/

/-- The program counter of one `withLock` invocation:
`running` is the phase in which the callback body executes. -/
inductive Phase
  | start
  | mutexHeld
  | running
  | opDone
  | advReleased
  | done
  deriving DecidableEq, Repr

/-- Static thread layout: which process a thread belongs to (the in-process
mutex is per process) and which named lock it invokes `withLock` on. -/
structure LockSystemConfig (T : Type) where
  procOf : T → Nat
  lockOf : T → DatabaseLock

/-- Shared state of the interleaved system: per-thread phase, the
per-process keyed mutexes, and the database-wide advisory-lock table. -/
structure SysState (T : Type) where
  phase : T → Phase
  mutex : Nat → String → Option T
  advisory : Nat → Option T

/-- All threads at start, no mutex or advisory lock held. -/
def initSysState (T : Type) : SysState T :=
  ⟨fun _ => .start, fun _ _ => none, fun _ => none⟩

/-- One atomic step of some thread `t`: the five suspension points of
`withLock` in source order. Acquisitions require the resource free;
`pg_advisory_unlock` clears the advisory entry only when this session holds
it, and the mutex release only clears this thread's own hold. -/
inductive LockStep {T : Type} [DecidableEq T] (cfg : LockSystemConfig T) :
    SysState T → SysState T → Prop
  | acqMutex (t : T) (s : SysState T)
      (h1 : s.phase t = .start)
      (h2 : s.mutex (cfg.procOf t) (lockName (cfg.lockOf t)) = none) :
      LockStep cfg s
        ⟨Function.update s.phase t .mutexHeld,
          fun p k => if p = cfg.procOf t ∧ k = lockName (cfg.lockOf t) then some t
            else s.mutex p k,
          s.advisory⟩
  | acqAdvisory (t : T) (s : SysState T)
      (h1 : s.phase t = .mutexHeld)
      (h2 : s.advisory (lockId (cfg.lockOf t)) = none) :
      LockStep cfg s
        ⟨Function.update s.phase t .running, s.mutex,
          fun i => if i = lockId (cfg.lockOf t) then some t else s.advisory i⟩
  | finishOp (t : T) (s : SysState T)
      (h1 : s.phase t = .running) :
      LockStep cfg s ⟨Function.update s.phase t .opDone, s.mutex, s.advisory⟩
  | relAdvisory (t : T) (s : SysState T)
      (h1 : s.phase t = .opDone) :
      LockStep cfg s
        ⟨Function.update s.phase t .advReleased, s.mutex,
          fun i => if i = lockId (cfg.lockOf t) ∧ s.advisory i = some t then none
            else s.advisory i⟩
  | relMutex (t : T) (s : SysState T)
      (h1 : s.phase t = .advReleased) :
      LockStep cfg s
        ⟨Function.update s.phase t .done,
          fun p k => if p = cfg.procOf t ∧ k = lockName (cfg.lockOf t) ∧ s.mutex p k = some t
            then none else s.mutex p k,
          s.advisory⟩

/-- States reachable from the initial state by interleaved steps. -/
def Reachable {T : Type} [DecidableEq T] (cfg : LockSystemConfig T) (s : SysState T) : Prop :=
  Relation.ReflTransGen (LockStep cfg) (initSysState T) s

/-- Phases in which a thread holds its in-process mutex. -/
def ActivePhase (ph : Phase) : Prop :=
  ph = .mutexHeld ∨ ph = .running ∨ ph = .opDone ∨ ph = .advReleased

/-- Phases in which a thread holds its advisory lock. -/
def HoldingAdv (ph : Phase) : Prop :=
  ph = .running ∨ ph = .opDone

/-- The system invariant: an active thread owns its process-and-key mutex
cell, and a thread past advisory acquisition owns its advisory entry. -/
def SysInv {T : Type} (cfg : LockSystemConfig T) (s : SysState T) : Prop :=
  (∀ t, ActivePhase (s.phase t) →
    s.mutex (cfg.procOf t) (lockName (cfg.lockOf t)) = some t) ∧
  (∀ t, HoldingAdv (s.phase t) →
    s.advisory (lockId (cfg.lockOf t)) = some t)

theorem sysInv_init {T : Type} [DecidableEq T] (cfg : LockSystemConfig T) :
    SysInv cfg (initSysState T) := by
  constructor
  · intro t ht
    rcases ht with h | h | h | h <;> simp [initSysState] at h
  · intro t ht
    rcases ht with h | h <;> simp [initSysState] at h

theorem sysInv_step {T : Type} [DecidableEq T] (cfg : LockSystemConfig T)
    {s s2 : SysState T} (hinv : SysInv cfg s) (hstep : LockStep cfg s s2) :
    SysInv cfg s2 := by
  obtain ⟨hm, ha⟩ := hinv
  cases hstep with
  | acqMutex t s h1 h2 =>
    constructor
    · intro u hu
      by_cases htu : u = t
      · subst htu
        simp
      · simp only [Function.update, dif_neg htu] at hu
        have hold := hm u hu
        by_cases hcell : cfg.procOf u = cfg.procOf t ∧
            lockName (cfg.lockOf u) = lockName (cfg.lockOf t)
        · rw [hcell.1, hcell.2] at hold
          rw [hold] at h2
          exact absurd h2 (by simp)
        · simpa [hcell] using hm u hu
    · intro u hu
      by_cases htu : u = t
      · subst htu
        simp only [Function.update, dif_pos rfl] at hu
        rcases hu with h | h <;> exact absurd h (by simp)
      · simp only [Function.update, dif_neg htu] at hu
        exact ha u hu
  | acqAdvisory t s h1 h2 =>
    constructor
    · intro u hu
      by_cases htu : u = t
      · subst htu
        exact hm u (Or.inl h1)
      · simp only [Function.update, dif_neg htu] at hu
        exact hm u hu
    · intro u hu
      by_cases htu : u = t
      · subst htu
        simp
      · simp only [Function.update, dif_neg htu] at hu
        have hold := ha u hu
        by_cases hcell : lockId (cfg.lockOf u) = lockId (cfg.lockOf t)
        · rw [hcell] at hold
          rw [hold] at h2
          exact absurd h2 (by simp)
        · simpa [hcell] using ha u hu
  | finishOp t s h1 =>
    constructor
    · intro u hu
      by_cases htu : u = t
      · subst htu
        exact hm u (Or.inr (Or.inl h1))
      · simp only [Function.update, dif_neg htu] at hu
        exact hm u hu
    · intro u hu
      by_cases htu : u = t
      · subst htu
        exact ha u (Or.inl h1)
      · simp only [Function.update, dif_neg htu] at hu
        exact ha u hu
  | relAdvisory t s h1 =>
    constructor
    · intro u hu
      by_cases htu : u = t
      · subst htu
        exact hm u (Or.inr (Or.inr (Or.inl h1)))
      · simp only [Function.update, dif_neg htu] at hu
        exact hm u hu
    · intro u hu
      by_cases htu : u = t
      · subst htu
        simp only [Function.update, dif_pos rfl] at hu
        rcases hu with h | h <;> exact absurd h (by simp)
      · simp only [Function.update, dif_neg htu] at hu
        have hold := ha u hu
        have hne : ¬ (lockId (cfg.lockOf u) = lockId (cfg.lockOf t) ∧
            s.advisory (lockId (cfg.lockOf u)) = some t) := by
          rintro ⟨_, hsame⟩
          rw [hold] at hsame
          exact htu (Option.some.inj hsame)
        simpa [hne] using hold
  | relMutex t s h1 =>
    constructor
    · intro u hu
      by_cases htu : u = t
      · subst htu
        simp only [Function.update, dif_pos rfl] at hu
        rcases hu with h | h | h | h <;> exact absurd h (by simp)
      · simp only [Function.update, dif_neg htu] at hu
        have hold := hm u hu
        have hne : ¬ (cfg.procOf u = cfg.procOf t ∧
            lockName (cfg.lockOf u) = lockName (cfg.lockOf t) ∧
            s.mutex (cfg.procOf u) (lockName (cfg.lockOf u)) = some t) := by
          rintro ⟨_, _, hsame⟩
          rw [hold] at hsame
          exact htu (Option.some.inj hsame)
        simpa [hne] using hold
    · intro u hu
      by_cases htu : u = t
      · subst htu
        simp only [Function.update, dif_pos rfl] at hu
        rcases hu with h | h <;> exact absurd h (by simp)
      · simp only [Function.update, dif_neg htu] at hu
        exact ha u hu

theorem sysInv_reachable {T : Type} [DecidableEq T] (cfg : LockSystemConfig T)
    {s : SysState T} (h : Reachable cfg s) : SysInv cfg s := by
  induction h with
  | refl => exact sysInv_init cfg
  | tail _ hstep ih => exact sysInv_step cfg ih hstep

/-- Two threads of one process invoking `withLock` on distinct locks
(migrations and the CLIP rebuild lock). -/
def twoLockConfig : LockSystemConfig Bool :=
  ⟨fun _ => 0, fun b => if b then .clipDimSize else .migrations⟩

/-- A state in which both threads of `twoLockConfig` run their callback
bodies at the same time. -/
def bothRunningState : SysState Bool :=
  ⟨Function.update (Function.update (Function.update (Function.update
      (fun _ => Phase.start) false .mutexHeld) false .running) true .mutexHeld) true .running,
    fun p k => if p = 0 ∧ k = lockName DatabaseLock.clipDimSize then some true
      else if p = 0 ∧ k = lockName DatabaseLock.migrations then some false else none,
    fun i => if i = lockId DatabaseLock.clipDimSize then some true
      else if i = lockId DatabaseLock.migrations then some false else none⟩

/-- C2: in any reachable interleaving, two same-process invocations of
`withLock` on the same lock never have their callback bodies running at
once; a state with two bodies running on distinct locks is reachable; and
at most one thread holding a given advisory-lock id is past acquisition at
a time, across all processes. -/
theorem C2_withLock_mutual_exclusion :
    (∀ (T : Type) [DecidableEq T] (cfg : LockSystemConfig T) (s : SysState T) (t1 t2 : T),
      Reachable cfg s → cfg.procOf t1 = cfg.procOf t2 → cfg.lockOf t1 = cfg.lockOf t2 →
      s.phase t1 = .running → s.phase t2 = .running → t1 = t2) ∧
    (∃ s : SysState Bool, Reachable twoLockConfig s ∧
      s.phase false = .running ∧ s.phase true = .running) ∧
    (∀ (T : Type) [DecidableEq T] (cfg : LockSystemConfig T) (s : SysState T) (t1 t2 : T),
      Reachable cfg s → lockId (cfg.lockOf t1) = lockId (cfg.lockOf t2) →
      (s.phase t1 = .running ∨ s.phase t1 = .opDone) →
      (s.phase t2 = .running ∨ s.phase t2 = .opDone) → t1 = t2) := by
  refine ⟨?_, ?_, ?_⟩
  · intro T _ cfg s t1 t2 hreach hproc hlock h1 h2
    obtain ⟨hm, _⟩ := sysInv_reachable cfg hreach
    have e1 := hm t1 (Or.inr (Or.inl h1))
    have e2 := hm t2 (Or.inr (Or.inl h2))
    rw [hproc, hlock] at e1
    rw [e1] at e2
    exact Option.some.inj e2
  · refine ⟨bothRunningState, ?_, by decide, by decide⟩
    exact Relation.ReflTransGen.tail
      (Relation.ReflTransGen.tail
        (Relation.ReflTransGen.tail
          (Relation.ReflTransGen.tail Relation.ReflTransGen.refl
            (LockStep.acqMutex false (initSysState Bool) rfl rfl))
          (LockStep.acqAdvisory false _ (by decide) (by decide)))
        (LockStep.acqMutex true _ (by decide) (by decide)))
      (LockStep.acqAdvisory true _ (by decide) (by decide))
  · intro T _ cfg s t1 t2 hreach hid h1 h2
    obtain ⟨_, ha⟩ := sysInv_reachable cfg hreach
    have e1 := ha t1 h1
    have e2 := ha t2 h2
    rw [hid] at e1
    rw [e1] at e2
    exact Option.some.inj e2

/-- One process, both threads on the migrations lock. -/
def oneLockConfig : LockSystemConfig Bool :=
  ⟨fun _ => 0, fun _ => .migrations⟩

/-- A reachable state of `oneLockConfig` with thread `false` running. -/
def oneRunningState : SysState Bool :=
  ⟨Function.update (Function.update (fun _ => Phase.start) false .mutexHeld) false .running,
    fun p k => if p = 0 ∧ k = lockName DatabaseLock.migrations then some false else none,
    fun i => if i = lockId DatabaseLock.migrations then some false else none⟩

/-- Witness for C2: the mutual-exclusion conjuncts applied at a concrete
reachable state with a body running, and the reachable overlapping state
for distinct locks re-exposed. -/
theorem C2_withLock_mutual_exclusion_witness :
    Reachable oneLockConfig oneRunningState ∧
    oneRunningState.phase false = .running ∧
    (false = false) ∧ (false = false) := by
  have hreach : Reachable oneLockConfig oneRunningState :=
    Relation.ReflTransGen.tail
      (Relation.ReflTransGen.tail Relation.ReflTransGen.refl
        (LockStep.acqMutex false (initSysState Bool) rfl rfl))
      (LockStep.acqAdvisory false _ (by decide) (by decide))
  have hrun : oneRunningState.phase false = .running := by decide
  refine ⟨hreach, hrun, ?_, ?_⟩
  · exact C2_withLock_mutual_exclusion.1 Bool oneLockConfig oneRunningState false false
      hreach rfl rfl hrun hrun
  · exact C2_withLock_mutual_exclusion.2.2 Bool oneLockConfig oneRunningState false false
      hreach rfl (Or.inl hrun) (Or.inl hrun)

end ImmichDb
